import Mathlib

/-!
Shallow embedding of `qutip/core/environment.py`: bosonic-environment
characterizations (spectral density, power spectrum, correlation function),
the analytic Drude-Lorentz / Underdamped / Ohmic models, the Matsubara
expansions, and the exponent-generation steps of the fitting engine.

Python floats are modelled by `ℝ`, complex values by `ℂ`, numpy arrays by
`List`, and fallible constructors by `Except String`.
-/

open Complex (I)

noncomputable section

namespace QutipEnv

/-- Embedding of `np.sign` on real numbers. -/
def np_sign (x : ℝ) : ℝ := if x < 0 then -1 else if x = 0 then 0 else 1

/-- Embedding of `np.heaviside (x, 0)`: 0 for `x ≤ 0`, 1 for `x > 0`. -/
def np_heaviside (x : ℝ) : ℝ := if x < 0 then 0 else if x = 0 then 0 else 1

/-- Embedding of `np.sqrt` on a complex argument: the principal square root `z ^ (1/2)`. -/
def np_csqrt (z : ℂ) : ℂ := z ^ ((1 : ℂ) / 2)

/-- Modelled from the spec: `qutip.utilities.n_thermal` (imported by
`environment.py` but not part of this repository's sources) is the Bose
occupation number `n(w, T) = 1 / (exp(w/T) - 1)`, undefined at `w = 0`. -/
def n_thermal (w T : ℝ) : ℝ := 1 / (Real.exp (w / T) - 1)

/-- The substitution `w[w == 0.0] += 1e-6` performed at the start of
`BosonicEnvironment.power_spectrum`, elementwise. -/
def regularize_zero (w : ℝ) : ℝ := if w = 0 then w + 1e-6 else w

/-- Embedding of `BosonicEnvironment.power_spectrum` (the default implementation used by
the spectral-density-based environments), elementwise on the entries of the
frequency array.  `J` is the environment's `spectral_density`. -/
def power_spectrum_default (J : ℝ → ℝ) (T w : ℝ) : ℝ :=
  let w' := regularize_zero w
  if T ≠ 0 then
    2 * np_sign w' * J |w'| * (n_thermal w' T + 1)
  else
    2 * np_heaviside w' * J w'

/-- Embedding of `_BosonicEnvironment_fromCF.correlation_function`, elementwise: entries
with `t > 0` evaluate the stored interpolated/callable function `cf`, all
other entries evaluate `conj (cf |t|)`. -/
def fromCF_correlation_function (cf : ℝ → ℂ) (t : ℝ) : ℂ :=
  if 0 < t then cf t else (starRingEnd ℂ) (cf |t|)

/-- Embedding of `DrudeLorentzEnvironment.spectral_density`. -/
def DrudeLorentz_J (lam gamma w : ℝ) : ℝ :=
  2 * lam * gamma * w / (gamma ^ 2 + w ^ 2)

/-- Embedding of `UnderDampedEnvironment.spectral_density`. -/
def UnderDamped_J (lam gamma w0 w : ℝ) : ℝ :=
  lam ^ 2 * gamma * w / ((w ^ 2 - w0 ^ 2) ^ 2 + (gamma * w) ^ 2)

/-- Embedding of `OhmicEnvironment.spectral_density`; `^` on the right-hand side is the
real power `Real.rpow`, matching numpy's float `**`. -/
def Ohmic_J (alpha wc s w : ℝ) : ℝ :=
  alpha * w ^ s / wc ^ (1 - s) * Real.exp (-|w| / wc)

/-- The list `ck_real` built by `DrudeLorentzEnvironment._matsubara_params`. -/
def DL_ck_real (lam gamma T : ℝ) (Nk : ℕ) : List ℝ :=
  lam * gamma / Real.tan (gamma / (2 * T)) ::
    (List.range Nk).map (fun i : ℕ =>
      8 * lam * gamma * T * Real.pi * ((i : ℝ) + 1) * T /
        ((2 * Real.pi * ((i : ℝ) + 1) * T) ^ 2 - gamma ^ 2))

/-- The list `vk_real` built by `DrudeLorentzEnvironment._matsubara_params`. -/
def DL_vk_real (gamma T : ℝ) (Nk : ℕ) : List ℝ :=
  gamma :: (List.range Nk).map (fun i : ℕ => 2 * Real.pi * ((i : ℝ) + 1) * T)

/-- The list `ck_imag` built by `DrudeLorentzEnvironment._matsubara_params`. -/
def DL_ck_imag (lam gamma : ℝ) : List ℝ := [-(lam * gamma)]

/-- The list `vk_imag` built by `DrudeLorentzEnvironment._matsubara_params`. -/
def DL_vk_imag (gamma : ℝ) : List ℝ := [gamma]

/-- Data kept by `scipy.interpolate.interp1d` as used in
`_real_interpolation`: the sample abscissae and values.  The actual cubic
spline is a numerical-backend capability outside the claims checked here;
only the validation performed before building it matters. -/
structure Interp1d where
  xs : List ℝ
  ys : List ℝ

/-- The `ValueError` message raised by `_real_interpolation`. -/
def interpolation_error (name : String) : String :=
  "A list of x-values with the same length must be provided for the " ++
    "discretized function: " ++ name

/-- Embedding of `_real_interpolation` on a discretized (array-valued) input: raises a
`ValueError` when `xlist` is `None` or its length differs from the length of
the sample array, and otherwise builds the interpolant. -/
def real_interpolation (samples : List ℝ) (xlist : Option (List ℝ))
    (name : String) : Except String Interp1d :=
  match xlist with
  | none => .error (interpolation_error name)
  | some xs =>
      if xs.length ≠ samples.length then .error (interpolation_error name)
      else .ok ⟨xs, samples⟩

/-- Embedding of `_complex_interpolation` on a discretized input: interpolates real and
imaginary parts separately via `_real_interpolation`. -/
def complex_interpolation (samples : List ℂ) (xlist : Option (List ℝ))
    (name : String) : Except String (Interp1d × Interp1d) := do
  let r ← real_interpolation (samples.map Complex.re) xlist name
  let i ← real_interpolation (samples.map Complex.im) xlist name
  return (r, i)

/-- The state held by `_BosonicEnvironment_fromSD`. -/
structure EnvFromSD where
  T : ℝ
  sd : Interp1d

/-- The state held by `_BosonicEnvironment_fromPS`. -/
structure EnvFromPS where
  T : ℝ
  ps : Interp1d

/-- The state held by `_BosonicEnvironment_fromCF`. -/
structure EnvFromCF where
  T : ℝ
  cf : Interp1d × Interp1d

/-- Embedding of `BosonicEnvironment.from_spectral_density` with an array-valued `J`:
`_BosonicEnvironment_fromSD.__init__` interpolates `J` (validating the axis)
before anything else. -/
def fromSD_init (T : ℝ) (J : List ℝ) (wlist : Option (List ℝ)) :
    Except String EnvFromSD := do
  let sd ← real_interpolation J wlist ("spectral density")
  return ⟨T, sd⟩

/-- Embedding of `BosonicEnvironment.from_power_spectrum` with an array-valued `S`. -/
def fromPS_init (T : ℝ) (S : List ℝ) (wlist : Option (List ℝ)) :
    Except String EnvFromPS := do
  let ps ← real_interpolation S wlist ("power spectrum")
  return ⟨T, ps⟩

/-- Embedding of `BosonicEnvironment.from_correlation_function` with an array-valued `C`. -/
def fromCF_init (T : ℝ) (C : List ℂ) (tlist : Option (List ℝ)) :
    Except String EnvFromCF := do
  let cf ← complex_interpolation C tlist ("correlation function")
  return ⟨T, cf⟩

/-- Embedding of `ExponentialBosonicBath._bose_einstein`, elementwise.  The bath
temperature is `Option ℝ` because it may be unset (`None`). -/
def bose_einstein (T : Option ℝ) (w : ℝ) : Except String ℝ :=
  match T with
  | none => .error ("Bath temperature must be specified for this operation")
  | some T =>
      if T = 0 then .ok 0
      else if w = 0 then .ok 0
      else .ok (1 / (Real.exp (w / T) - 1))

/-- Embedding of `ApproximatedBosonicBath.from_ps`: the real coefficients
`ckAR = np.real (-1j * new_res)` built from the surviving residues. -/
def from_ps_ck_real (res : List ℂ) : List ℝ :=
  res.map (fun r => (-I * r).re)

/-- Embedding of `ApproximatedBosonicBath.from_ps`: the imaginary coefficients
`ckAI = np.imag (-1j * new_res)`. -/
def from_ps_ck_imag (res : List ℂ) : List ℝ :=
  res.map (fun r => (-I * r).im)

/-- Embedding of `ApproximatedBosonicBath.from_ps`: the complex rates
`vkAR + 1j * vkAI` with `vkAR = np.real (1j * new_pols)` and
`vkAI = np.imag (1j * new_pols)`, elementwise over the surviving poles. -/
def from_ps_vk (pols : List ℂ) : List ℂ :=
  pols.map (fun p => (((I * p).re : ℝ) : ℂ) + I * (((I * p).im : ℝ) : ℂ))

/-- Embedding of `SpectralFitter._generate_bath`: the transformed resonance frequency
`np.sqrt ((w0 + 0j) ** 2 + (gamma + 0j / 2) ** 2)` computed from one fitted
parameter pair (`gamma` = the fitted `b`, `w0` = the fitted `c`). -/
def SpectralFitter_w0 (gamma w0 : ℝ) : ℂ :=
  np_csqrt (((w0 : ℂ) + 0) ^ 2 + ((gamma : ℂ) + 0 / 2) ^ 2)

/-- Embedding of `SpectralFitter._generate_bath`: the transformed coupling
`np.sqrt (lam + 0j)` computed from the fitted `a`. -/
def SpectralFitter_lam (lam : ℝ) : ℂ :=
  np_csqrt ((lam : ℂ) + 0)

/-- The resonance-frequency transformation as the specification words it:
`ω0 = √(c² + (b/2)²)` (for comparison with `SpectralFitter_w0`). -/
def SpectralFitter_w0_specModel (gamma w0 : ℝ) : ℂ :=
  np_csqrt ((w0 : ℂ) ^ 2 + ((gamma : ℂ) / 2) ^ 2)

/-- Embedding of `CorrelationFitter._generate_bath`: the coefficient list `ckAR`,
`[(x + 1j*y) * 0.5 for x, y in zip (a, d)]` extended by its elementwise
complex conjugate. -/
def CF_ckAR (a d : List ℝ) : List ℂ :=
  let L := (a.zip d).map (fun p => ((p.1 : ℂ) + I * (p.2 : ℂ)) * 0.5)
  L ++ L.map (starRingEnd ℂ)

/-- Embedding of `CorrelationFitter._generate_bath`: the coefficient list `ckAI`,
`[-1j * (x + 1j*y) * 0.5 for x, y in zip (a2, d2)]` extended by its
elementwise complex conjugate. -/
def CF_ckAI (a2 d2 : List ℝ) : List ℂ :=
  let L := (a2.zip d2).map (fun p => -I * ((p.1 : ℂ) + I * (p.2 : ℂ)) * 0.5)
  L ++ L.map (starRingEnd ℂ)

/-- Embedding of `CorrelationFitter._generate_bath`: the rate list used both as `vkAR`
(from `params_real`) and as `vkAI` (from `params_imag`):
`[-x - 1j*y for x, y in zip (b, c)]` extended by `[-x + 1j*y ...]`. -/
def CF_vk (b c : List ℝ) : List ℂ :=
  ((b.zip c).map (fun p => -(p.1 : ℂ) - I * (p.2 : ℂ))) ++
    ((b.zip c).map (fun p => -(p.1 : ℂ) + I * (p.2 : ℂ)))

/-- C9: for every frequency `w > 0` and parameters in the valid ranges
(`lam > 0`, `gamma > 0`, `w0 > 0`, `alpha > 0`, `wc > 0`, `s > 0`), the
spectral densities of the Drude-Lorentz, Underdamped and Ohmic models are
nonnegative. -/
theorem C9_spectral_density_nonneg (lam gamma w0 alpha wc s w : ℝ)
    (hlam : 0 < lam) (hgamma : 0 < gamma) (hw0 : 0 < w0)
    (halpha : 0 < alpha) (hwc : 0 < wc) (hs : 0 < s) (hw : 0 < w) :
    0 ≤ DrudeLorentz_J lam gamma w ∧
    0 ≤ UnderDamped_J lam gamma w0 w ∧
    0 ≤ Ohmic_J alpha wc s w := by
  refine ⟨?_, ?_, ?_⟩
  · unfold DrudeLorentz_J; positivity
  · unfold UnderDamped_J; positivity
  · unfold Ohmic_J; positivity

/-- Witness for C9 at the concrete parameter point
`lam = gamma = w0 = alpha = wc = s = w = 1`. -/
theorem C9_witness :
    0 ≤ DrudeLorentz_J 1 1 1 ∧ 0 ≤ UnderDamped_J 1 1 1 1 ∧
      0 ≤ Ohmic_J 1 1 1 1 :=
  C9_spectral_density_nonneg 1 1 1 1 1 1 1 (by norm_num) (by norm_num)
    (by norm_num) (by norm_num) (by norm_num) (by norm_num) (by norm_num)

/-- C7: `_bose_einstein` errors when the bath temperature is unset (`None`),
returns `0` for all frequencies when `T = 0`, and for `T > 0` returns
`1 / (exp (w / T) - 1)` at every nonzero frequency and `0` at `w = 0`. -/
theorem C7_bose_einstein (T w : ℝ) :
    bose_einstein none w =
      .error ("Bath temperature must be specified for this operation") ∧
    bose_einstein (some 0) w = .ok 0 ∧
    (0 < T → w ≠ 0 →
      bose_einstein (some T) w = .ok (1 / (Real.exp (w / T) - 1))) ∧
    (0 < T → bose_einstein (some T) 0 = .ok 0) := by
  refine ⟨rfl, by simp [bose_einstein], fun hT hw => ?_, fun hT => ?_⟩
  · simp [bose_einstein, hw, ne_of_gt hT]
  · simp [bose_einstein, ne_of_gt hT]

/-- Witness for C7 at `T = 1`, `w = 2`. -/
theorem C7_witness :
    bose_einstein (some 1) 2 = .ok (1 / (Real.exp (2 / 1) - 1)) :=
  (C7_bose_einstein 1 2).2.2.1 (by norm_num) (by norm_num)

/-- C10: `_BosonicEnvironment_fromCF.correlation_function` at `t = 0`
returns the complex conjugate of the supplied `C 0` (which differs from
`C 0` itself for some inputs); strictly positive times are routed to the
supplied function and `t ≤ 0` through the conjugate branch. -/
theorem C10_fromCF_zero_routing (cf : ℝ → ℂ) :
    fromCF_correlation_function cf 0 = (starRingEnd ℂ) (cf 0) ∧
    (∀ t : ℝ, 0 < t → fromCF_correlation_function cf t = cf t) ∧
    (∀ t : ℝ, t ≤ 0 →
      fromCF_correlation_function cf t = (starRingEnd ℂ) (cf |t|)) ∧
    ∃ g : ℝ → ℂ, fromCF_correlation_function g 0 ≠ g 0 := by
  refine ⟨by simp [fromCF_correlation_function], fun t ht => ?_,
    fun t ht => ?_, ⟨fun _ => I, ?_⟩⟩
  · simp [fromCF_correlation_function, ht]
  · simp [fromCF_correlation_function, not_lt.mpr ht]
  · simp [fromCF_correlation_function, Complex.ext_iff]
    norm_num

/-- Witness for C10 at `t = 1` with the constant function `2`. -/
theorem C10_witness :
    fromCF_correlation_function (fun _ => (2 : ℂ)) 1 = 2 :=
  (C10_fromCF_zero_routing (fun _ => (2 : ℂ))).2.1 1 (by norm_num)

/-- C2 (amended): for an environment built from a correlation function `cf`,
the Hermitian symmetry `C (-t) = conj (C t)` holds at every `t ≠ 0`; at
`t = 0` it holds exactly when the supplied `cf 0` is real. -/
theorem C2_fromCF_hermitian (cf : ℝ → ℂ) :
    (∀ t : ℝ, t ≠ 0 →
      fromCF_correlation_function cf (-t) =
        (starRingEnd ℂ) (fromCF_correlation_function cf t)) ∧
    (fromCF_correlation_function cf 0 =
        (starRingEnd ℂ) (fromCF_correlation_function cf 0) ↔
      (cf 0).im = 0) := by
  constructor
  · intro t ht
    rcases lt_or_gt_of_ne ht with h | h
    · have h1 : 0 < -t := by linarith
      simp [fromCF_correlation_function, h1, not_lt.mpr h.le,
        abs_of_neg h, Complex.conj_conj]
    · have h1 : ¬ 0 < -t := by linarith
      simp [fromCF_correlation_function, h, h1, abs_of_pos h]
  · simp only [fromCF_correlation_function]
    norm_num
    exact Complex.conj_eq_iff_im

/-- Witness for C2 at `t = 1` with the constant correlation function `I`. -/
theorem C2_witness :
    fromCF_correlation_function (fun _ => I) (-1) =
      (starRingEnd ℂ) (fromCF_correlation_function (fun _ => I) 1) :=
  (C2_fromCF_hermitian (fun _ => I)).1 1 (by norm_num)

/-- C2 counterexample: with the (constant) supplied correlation function
`C t = I`, Hermitian symmetry fails at `t = 0`:
`C (-0) ≠ conj (C 0)` for the constructed environment. -/
theorem C2_counterexample :
    ¬ (fromCF_correlation_function (fun _ => I) (-0) =
        (starRingEnd ℂ) (fromCF_correlation_function (fun _ => I) 0)) := by
  simp [fromCF_correlation_function, Complex.ext_iff]
  norm_num

/-- C3: the default (spectral-density-based) power spectrum equals
`2 * sign w * J |w| * (n (w, T) + 1)` for `T ≠ 0` and
`2 * heaviside w * J w` for `T = 0` at every `w ≠ 0`; an entry `w = 0` is
first replaced by `1e-6`, and for `T > 0` the Bose factor at the
regularized point is a division by a genuinely nonzero (positive)
denominator, so the value at `w = 0` is finite. -/
theorem C3_power_spectrum_default (J : ℝ → ℝ) (T w : ℝ) :
    (T ≠ 0 → w ≠ 0 →
      power_spectrum_default J T w =
        2 * np_sign w * J |w| * (n_thermal w T + 1)) ∧
    (T = 0 → w ≠ 0 →
      power_spectrum_default J T w = 2 * np_heaviside w * J w) ∧
    power_spectrum_default J T 0 = power_spectrum_default J T 1e-6 ∧
    (0 < T → 0 < Real.exp (1e-6 / T) - 1) := by
  refine ⟨fun hT hw => ?_, fun hT hw => ?_, ?_, fun hT => ?_⟩
  · simp [power_spectrum_default, regularize_zero, hT, hw]
  · simp [power_spectrum_default, regularize_zero, hT, hw]
  · have h0 : regularize_zero 0 = 1e-6 := by norm_num [regularize_zero]
    have h1 : regularize_zero 1e-6 = 1e-6 := by norm_num [regularize_zero]
    simp only [power_spectrum_default, h0, h1]
  · have hx : 0 < 1e-6 / T := by positivity
    have := Real.add_one_le_exp (1e-6 / T)
    linarith

/-- Witness for C3 at `J = id`, `T = 1`, `w = 2`. -/
theorem C3_witness :
    power_spectrum_default (fun x => x) 1 2 =
      2 * np_sign 2 * |(2 : ℝ)| * (n_thermal 2 1 + 1) ∧
    0 < Real.exp (1e-6 / 1) - 1 :=
  ⟨(C3_power_spectrum_default (fun x => x) 1 2).1 (by norm_num) (by norm_num),
    (C3_power_spectrum_default (fun x => x) 1 2).2.2.2 (by norm_num)⟩

/-- C6: building an environment from a discretized characterization
(`from_spectral_density`, `from_power_spectrum` or
`from_correlation_function` with array samples) whose axis array is missing
or has a length different from the samples fails with the validation error
raised by `_real_interpolation`, before anything else is computed. -/
theorem C6_discretized_validation (T : ℝ) (wlist : Option (List ℝ)) :
    (∀ J : List ℝ, (∀ xs, wlist = some xs → xs.length ≠ J.length) →
      fromSD_init T J wlist = .error (interpolation_error ("spectral density"))) ∧
    (∀ S : List ℝ, (∀ xs, wlist = some xs → xs.length ≠ S.length) →
      fromPS_init T S wlist = .error (interpolation_error ("power spectrum"))) ∧
    (∀ C : List ℂ, (∀ xs, wlist = some xs → xs.length ≠ C.length) →
      fromCF_init T C wlist =
        .error (interpolation_error ("correlation function"))) := by
  refine ⟨fun J h => ?_, fun S h => ?_, fun C h => ?_⟩
  · cases wlist with
    | none => rfl
    | some xs =>
        have hx := h xs rfl
        simp [fromSD_init, real_interpolation, hx]
  · cases wlist with
    | none => rfl
    | some xs =>
        have hx := h xs rfl
        simp [fromPS_init, real_interpolation, hx]
  · cases wlist with
    | none => rfl
    | some xs =>
        have hx := h xs rfl
        simp [fromCF_init, complex_interpolation, real_interpolation, hx,
          Except.bind, Except.map, Bind.bind]

/-- Witness for C6: a one-sample spectral density with a two-entry axis. -/
theorem C6_witness :
    fromSD_init 1 [1] (some [1, 2]) =
      .error (interpolation_error ("spectral density")) :=
  (C6_discretized_validation 1 (some [1, 2])).1 [1]
    (by intro xs hxs; cases hxs; decide)

/-- C8: `ApproximatedBosonicBath.from_ps` turns each surviving
(pole, residue) pair into an exponent with coefficient `-I * residue`
(its real and imaginary parts becoming the real and imaginary coefficient
lists) and complex rate `I * pole`. -/
theorem C8_from_ps_conversion (res pols : List ℂ) (k : ℕ) (r p : ℂ)
    (hr : res[k]? = some r) (hp : pols[k]? = some p) :
    (from_ps_ck_real res)[k]? = some ((-I * r).re) ∧
    (from_ps_ck_imag res)[k]? = some ((-I * r).im) ∧
    ((((-I * r).re : ℝ) : ℂ) + I * (((-I * r).im : ℝ) : ℂ) = -I * r) ∧
    (from_ps_vk pols)[k]? = some (I * p) := by
  refine ⟨?_, ?_, ?_, ?_⟩
  · simp [from_ps_ck_real, List.getElem?_map, hr]
  · simp [from_ps_ck_imag, List.getElem?_map, hr]
  · rw [mul_comm I, Complex.re_add_im]
  · simp only [from_ps_vk, List.getElem?_map, hp, Option.map_some']
    rw [mul_comm I (((I * p).im : ℝ) : ℂ), Complex.re_add_im]

/-- Witness for C8 at `res = [1 + I]`, `pols = [2]`, `k = 0`. -/
theorem C8_witness :
    (from_ps_ck_real [1 + I])[0]? = some ((-I * (1 + I)).re) ∧
    (from_ps_ck_imag [1 + I])[0]? = some ((-I * (1 + I)).im) ∧
    ((((-I * (1 + I)).re : ℝ) : ℂ) + I * (((-I * (1 + I)).im : ℝ) : ℂ) =
      -I * (1 + I)) ∧
    (from_ps_vk [2])[0]? = some (I * 2) :=
  C8_from_ps_conversion [1 + I] [2] 0 (1 + I) 2 rfl rfl

/-- C4: `DrudeLorentzEnvironment._matsubara_params Nk` returns `1 + Nk` real
exponents: a leading term with coefficient `lam * gamma * cot (gamma / (2T))`
at rate `gamma`, and for each `k` from 1 to `Nk` a term with coefficient
`8 * lam * gamma * T * (pi * k * T) / ((2 * pi * k * T) ^ 2 - gamma ^ 2)` at
rate `2 * pi * k * T`; plus exactly one imaginary exponent with coefficient
`-(lam * gamma)` at rate `gamma`. -/
theorem C4_DL_matsubara (lam gamma T : ℝ) (Nk : ℕ) (k : ℕ) (hk : k < Nk) :
    (DL_ck_real lam gamma T Nk).length = 1 + Nk ∧
    (DL_vk_real gamma T Nk).length = 1 + Nk ∧
    (DL_ck_real lam gamma T Nk)[0]? =
      some (lam * gamma * Real.cot (gamma / (2 * T))) ∧
    (DL_vk_real gamma T Nk)[0]? = some gamma ∧
    (DL_ck_real lam gamma T Nk)[k + 1]? =
      some (8 * lam * gamma * T * (Real.pi * (k + 1) * T) /
        ((2 * Real.pi * (k + 1) * T) ^ 2 - gamma ^ 2)) ∧
    (DL_vk_real gamma T Nk)[k + 1]? = some (2 * Real.pi * (k + 1) * T) ∧
    DL_ck_imag lam gamma = [-(lam * gamma)] ∧
    DL_vk_imag gamma = [gamma] := by
  refine ⟨?_, ?_, ?_, ?_, ?_, ?_, rfl, rfl⟩
  · rw [DL_ck_real]
    simp only [List.length_cons, List.length_map, List.length_range]
    omega
  · rw [DL_vk_real]
    simp only [List.length_cons, List.length_map, List.length_range]
    omega
  · rw [DL_ck_real, List.getElem?_cons_zero, Option.some.injEq,
      Real.cot_eq_cos_div_sin, Real.tan_eq_sin_div_cos,
      div_div_eq_mul_div, mul_div_assoc]
  · rw [DL_vk_real, List.getElem?_cons_zero]
  · rw [DL_ck_real, List.getElem?_cons_succ, List.getElem?_map,
      List.getElem?_range hk, Option.map_some', Option.some.injEq]
    ring
  · rw [DL_vk_real, List.getElem?_cons_succ, List.getElem?_map,
      List.getElem?_range hk, Option.map_some']

/-- Witness for C4 at `lam = gamma = T = 1`, `Nk = 1`, `k = 0`. -/
theorem C4_witness :
    (DL_ck_real 1 1 1 1).length = 1 + 1 ∧
    (DL_ck_real 1 1 1 1)[0]? = some (1 * 1 * Real.cot (1 / (2 * 1))) ∧
    (DL_ck_real 1 1 1 1)[0 + 1]? =
      some (8 * 1 * 1 * 1 * (Real.pi * (((0 : ℕ) : ℝ) + 1) * 1) /
        ((2 * Real.pi * (((0 : ℕ) : ℝ) + 1) * 1) ^ 2 - 1 ^ 2)) :=
  ⟨(C4_DL_matsubara 1 1 1 1 0 (by norm_num)).1,
    (C4_DL_matsubara 1 1 1 1 0 (by norm_num)).2.2.1,
    (C4_DL_matsubara 1 1 1 1 0 (by norm_num)).2.2.2.2.1⟩

/-- C1 counterexample: at the fitted parameters `b = 2`, `c = 0` the code's
transformed resonance frequency (`np.sqrt ((c + 0j)^2 + (b + 0j/2)^2)`,
which equals 2) differs from the specified `√(c² + (b/2)²)` (which equals
1): in the source the `/ 2` applies only to the literal `0j`. -/
theorem C1_counterexample :
    SpectralFitter_w0 2 0 ≠ SpectralFitter_w0_specModel 2 0 := by
  have hr : (4 : ℝ) ^ ((1 : ℝ) / 2) = 2 := by
    rw [show (4 : ℝ) = 2 ^ (2 : ℕ) by norm_num, ← Real.rpow_natCast 2 2,
      ← Real.rpow_mul (by norm_num : (0 : ℝ) ≤ 2)]
    norm_num
  have h4 : np_csqrt 4 = 2 := by
    unfold np_csqrt
    have h := Complex.ofReal_cpow (by norm_num : (0 : ℝ) ≤ 4) (1 / 2)
    rw [show ((1 : ℂ) / 2) = (((1 / 2 : ℝ)) : ℂ) by norm_num,
      show (4 : ℂ) = (((4 : ℝ)) : ℂ) by norm_num, ← h, hr]
    norm_num
  have h1 : np_csqrt 1 = 1 := Complex.one_cpow _
  have e1 : SpectralFitter_w0 2 0 = 2 := by
    rw [SpectralFitter_w0, show ((((0 : ℝ) : ℂ) + 0) ^ 2 +
      (((2 : ℝ) : ℂ) + 0 / 2) ^ 2) = 4 by norm_num, h4]
  have e2 : SpectralFitter_w0_specModel 2 0 = 1 := by
    rw [SpectralFitter_w0_specModel, show (((0 : ℝ) : ℂ) ^ 2 +
      (((2 : ℝ) : ℂ) / 2) ^ 2) = 1 by norm_num, h1]
  rw [e1, e2]
  norm_num

/-- C1 (amended): `SpectralFitter._generate_bath` transforms each fitted
triple `(a, b, c)` into the physical underdamped convention via
`ω0 = √(c² + b²)` and `λ = √a`, using complex (principal) square roots
so that negative arguments are handled. -/
theorem C1_spectral_fitter_transform (a b c : ℝ) :
    SpectralFitter_w0 b c = np_csqrt ((c : ℂ) ^ 2 + (b : ℂ) ^ 2) ∧
    SpectralFitter_lam a = np_csqrt ((a : ℂ)) := by
  constructor
  · rw [SpectralFitter_w0]
    congr 1
    ring
  · rw [SpectralFitter_lam]
    congr 1
    ring

/-- For a list of the shape `L ++ L.map conj` (the shape produced by
`CorrelationFitter._generate_bath` for its coefficient and rate lists),
every position has a partner position holding the complex conjugate, and
the partner position is the same in any second list of the same shape whose
base has the same length. -/
lemma selfConj_partner (X Y : List ℂ) (h : Y.length = X.length) (i : ℕ) :
    ∃ j : ℕ, (X ++ X.map (starRingEnd ℂ))[j]? =
        ((X ++ X.map (starRingEnd ℂ))[i]?).map (starRingEnd ℂ) ∧
      (Y ++ Y.map (starRingEnd ℂ))[j]? =
        ((Y ++ Y.map (starRingEnd ℂ))[i]?).map (starRingEnd ℂ) := by
  rcases lt_or_le i X.length with hi | hi
  · refine ⟨i + X.length, ?_, ?_⟩
    · rw [List.getElem?_append_right (by omega), List.getElem?_map,
        Nat.add_sub_cancel, List.getElem?_append_left hi]
    · rw [List.getElem?_append_right (by omega), List.getElem?_map, h,
        Nat.add_sub_cancel, List.getElem?_append_left (by omega)]
  · rcases lt_or_le i (X.length + X.length) with hi2 | hi2
    · refine ⟨i - X.length, ?_, ?_⟩
      · rw [List.getElem?_append_left (by omega),
          List.getElem?_append_right hi, List.getElem?_map]
        cases X[i - X.length]? <;> simp [Complex.conj_conj]
      · rw [List.getElem?_append_left (by omega),
          List.getElem?_append_right (by omega), List.getElem?_map, h]
        cases Y[i - X.length]? <;> simp [Complex.conj_conj]
    · refine ⟨i, ?_, ?_⟩
      · have hX : (X ++ X.map (starRingEnd ℂ))[i]? = none :=
          List.getElem?_eq_none (by simp; omega)
        rw [hX]
        rfl
      · have hY : (Y ++ Y.map (starRingEnd ℂ))[i]? = none :=
          List.getElem?_eq_none (by simp; omega)
        rw [hY]
        rfl

/-- The second half of the rate lists built by
`CorrelationFitter._generate_bath` is the elementwise conjugate of the
first half. -/
lemma CF_vk_selfConj (b c : List ℝ) :
    CF_vk b c = ((b.zip c).map (fun p => -(p.1 : ℂ) - I * (p.2 : ℂ))) ++
      (((b.zip c).map (fun p => -(p.1 : ℂ) - I * (p.2 : ℂ))).map
        (starRingEnd ℂ)) := by
  rw [CF_vk, List.map_map]
  congr 1
  apply List.map_congr_left
  intro p _
  simp [Complex.ext_iff]

/-- Unfolding of `CF_ckAR`. -/
lemma CF_ckAR_eq (a d : List ℝ) :
    CF_ckAR a d =
      ((a.zip d).map (fun p => ((p.1 : ℂ) + I * (p.2 : ℂ)) * 0.5)) ++
        ((a.zip d).map (fun p => ((p.1 : ℂ) + I * (p.2 : ℂ)) * 0.5)).map
          (starRingEnd ℂ) := rfl

/-- Unfolding of `CF_ckAI`. -/
lemma CF_ckAI_eq (a2 d2 : List ℝ) :
    CF_ckAI a2 d2 =
      ((a2.zip d2).map (fun p => -I * ((p.1 : ℂ) + I * (p.2 : ℂ)) * 0.5)) ++
        ((a2.zip d2).map (fun p => -I * ((p.1 : ℂ) + I * (p.2 : ℂ)) * 0.5)).map
          (starRingEnd ℂ) := rfl

/-- C5 (amended): in the decomposition built by
`CorrelationFitter._generate_bath`, whenever an exponent `(c, v)` is
present, its conjugate partner `(conj c, conj v)` is present at a common
partner position of the coefficient/rate lists; the fitted rates are
`-b ∓ I*c`, with coefficients `0.5 * (a + I*d)` for the real part and
`-I * 0.5 * (a + I*d)` for the imaginary part, conjugates appended. -/
theorem C5_correlation_fitter_pairs (a d b c : List ℝ)
    (had : d.length = a.length) (hbc : c.length = b.length)
    (hab : b.length = a.length) :
    (∀ i : ℕ, ∃ j : ℕ,
      (CF_ckAR a d)[j]? = ((CF_ckAR a d)[i]?).map (starRingEnd ℂ) ∧
      (CF_vk b c)[j]? = ((CF_vk b c)[i]?).map (starRingEnd ℂ)) ∧
    (∀ i : ℕ, ∃ j : ℕ,
      (CF_ckAI a d)[j]? = ((CF_ckAI a d)[i]?).map (starRingEnd ℂ) ∧
      (CF_vk b c)[j]? = ((CF_vk b c)[i]?).map (starRingEnd ℂ)) ∧
    (∀ (k : ℕ) (p : ℝ × ℝ), (a.zip d)[k]? = some p →
      (CF_ckAR a d)[k]? = some (((p.1 : ℂ) + I * p.2) * 0.5) ∧
      (CF_ckAR a d)[k + (a.zip d).length]? =
        some ((starRingEnd ℂ) (((p.1 : ℂ) + I * p.2) * 0.5)) ∧
      (CF_ckAI a d)[k]? = some (-I * ((p.1 : ℂ) + I * p.2) * 0.5) ∧
      (CF_ckAI a d)[k + (a.zip d).length]? =
        some ((starRingEnd ℂ) (-I * ((p.1 : ℂ) + I * p.2) * 0.5))) ∧
    (∀ (k : ℕ) (q : ℝ × ℝ), (b.zip c)[k]? = some q →
      (CF_vk b c)[k]? = some (-(q.1 : ℂ) - I * q.2) ∧
      (CF_vk b c)[k + (b.zip c).length]? =
        some (-(q.1 : ℂ) + I * q.2)) := by
  have hlen : ∀ (f : ℝ × ℝ → ℂ),
      ((b.zip c).map f).length = (a.zip d).length := by
    intro f
    simp [List.length_zip, had, hbc, hab]
  refine ⟨fun i => ?_, fun i => ?_, fun k p hp => ?_, fun k q hq => ?_⟩
  · rw [CF_ckAR_eq, CF_vk_selfConj]
    exact selfConj_partner _ _ (by rw [hlen, List.length_map]) i
  · rw [CF_ckAI_eq, CF_vk_selfConj]
    exact selfConj_partner _ _ (by rw [hlen, List.length_map]) i
  · have hk : k < (a.zip d).length := by
      by_contra hc
      rw [List.getElem?_eq_none (by omega)] at hp
      exact absurd hp (by simp)
    refine ⟨?_, ?_, ?_, ?_⟩
    · rw [CF_ckAR_eq, List.getElem?_append_left (by simpa using hk),
        List.getElem?_map, hp, Option.map_some']
    · rw [CF_ckAR_eq,
        List.getElem?_append_right (by simp), List.length_map,
        Nat.add_sub_cancel, List.getElem?_map, List.getElem?_map, hp,
        Option.map_some', Option.map_some']
    · rw [CF_ckAI_eq, List.getElem?_append_left (by simpa using hk),
        List.getElem?_map, hp, Option.map_some']
    · rw [CF_ckAI_eq,
        List.getElem?_append_right (by simp), List.length_map,
        Nat.add_sub_cancel, List.getElem?_map, List.getElem?_map, hp,
        Option.map_some', Option.map_some']
  · have hk : k < (b.zip c).length := by
      by_contra hc
      rw [List.getElem?_eq_none (by omega)] at hq
      exact absurd hq (by simp)
    constructor
    · rw [CF_vk, List.getElem?_append_left (by simpa using hk),
        List.getElem?_map, hq, Option.map_some']
    · rw [CF_vk,
        List.getElem?_append_right (by simp), List.length_map,
        Nat.add_sub_cancel, List.getElem?_map, hq, Option.map_some']

/-- Witness for C5 on the fitted parameters `a = [1]`, `d = [0]`,
`b = [2]`, `c = [3]`. -/
theorem C5_witness :
    (∃ j : ℕ,
      (CF_ckAR [1] [0])[j]? = ((CF_ckAR [1] [0])[0]?).map (starRingEnd ℂ) ∧
      (CF_vk [2] [3])[j]? = ((CF_vk [2] [3])[0]?).map (starRingEnd ℂ)) ∧
    (CF_vk [2] [3])[0]? = some (-((2 : ℝ) : ℂ) - I * ((3 : ℝ) : ℂ)) :=
  ⟨(C5_correlation_fitter_pairs [1] [0] [2] [3] rfl rfl rfl).1 0,
    ((C5_correlation_fitter_pairs [1] [0] [2] [3] rfl rfl rfl).2.2.2
      0 (2, 3) rfl).1⟩

/-- C5 counterexample: with fitted parameters `a = [1]`, `d = [0]`,
`b = [2]`, `c = [3]`, the exponent `(0.5, -2 - 3I)` is present, but the
partner demanded by the claim, `(conj 0.5, -conj (-2 - 3I)) = (0.5, 2 - 3I)`,
appears at no position of the coefficient/rate lists. -/
theorem C5_counterexample :
    (CF_ckAR [1] [0])[0]? = some (0.5 : ℂ) ∧
    (CF_vk [2] [3])[0]? = some (-2 - 3 * I) ∧
    ¬ ∃ j : ℕ,
      (CF_ckAR [1] [0])[j]? = some ((starRingEnd ℂ) (0.5 : ℂ)) ∧
      (CF_vk [2] [3])[j]? = some (-((starRingEnd ℂ) (-2 - 3 * I))) := by
  refine ⟨?_, ?_, ?_⟩
  · norm_num [CF_ckAR_eq]
  · norm_num [CF_vk]
    ring
  · rintro ⟨j, hck, hvk⟩
    have hconj : -((starRingEnd ℂ) (-2 - 3 * I)) = 2 - 3 * I := by
      simp [Complex.ext_iff]
    rw [hconj] at hvk
    rcases j with _ | _ | j
    · rw [show (CF_vk [2] [3])[0]? = some (-2 - 3 * I) by
        norm_num [CF_vk]; ring] at hvk
      simp [Complex.ext_iff] at hvk
      norm_num at hvk
    · rw [show (CF_vk [2] [3])[1]? = some (-2 + 3 * I) by
        norm_num [CF_vk]; ring] at hvk
      simp [Complex.ext_iff] at hvk
      norm_num at hvk
    · rw [show (CF_ckAR [1] [0])[j + 2]? = none from
        List.getElem?_eq_none (by simp [CF_ckAR_eq])] at hck
      exact absurd hck (by simp)

end QutipEnv
